import Mathlib

/-!
Verification of the tramp message-passing engine and its channel contract
implementations (GradientChannel, SumChannel, ReshapeChannel), shallowly
embedded over exact rationals.  Division by zero in the Python source
(which raises ZeroDivisionError on scalars or produces inf/nan on arrays)
is modelled by `Option`-valued division: `none` means the computation
produced a division-by-zero error / non-finite value.
-/

namespace Tramp

/-- Division returning `none` when the denominator is zero, modelling the
Python behaviour where dividing by a zero precision raises or produces a
non-finite value. -/
def safeDiv (a b : ℚ) : Option ℚ :=
  if b = 0 then none else some (a / b)

/-- Effectful map over a list in the `Option` monad (the elementwise numpy
operations of the source: the whole result is non-finite, `none`, as soon
as one element is). -/
def mapOpt {A B : Type} (f : A → Option B) : List A → Option (List B)
  | [] => some []
  | a :: as => do
    let b ← f a
    let bs ← mapOpt f as
    return b :: bs

/-- Arithmetic mean of a list, `none` on the empty list (numpy mean of an
empty array is nan). -/
def listMean (xs : List ℚ) : Option ℚ :=
  safeDiv xs.sum (xs.length : ℚ)

/-! ## SumChannel (src/channels/sum_channel.py)

The factor `x = sum(z_1, ..., z_K)`.  Scalar precisions `az` and linear
coefficients `bz` are given as lists of length `K = n_prev`.  The outgoing
accumulators `ax, bx` are scalars. -/

/-- Embeds `SumChannel.sample`: raises (here `none`) when the number of
inputs differs from the declared arity `n_prev`, else returns their sum. -/
def sumSample (n_prev : ℕ) (Zs : List ℚ) : Option ℚ :=
  if Zs.length ≠ n_prev then none else some Zs.sum

/-- Embeds `SumChannel.second_moment`: raises (here `none`) when the number
of inputs differs from `n_prev`, else returns the sum of the `taus`. -/
def sumSecondMoment (n_prev : ℕ) (taus : List ℚ) : Option ℚ :=
  if taus.length ≠ n_prev then none else some taus.sum

/-- Embeds `SumChannel.compute_forward_message`.  The source performs no
arity check here: it computes `v_bar = sum(1/a)`, `r_bar = sum(b/a)`,
`ax_new = 1/v_bar`, `bx_new = r_bar/v_bar` directly.  The arguments
`ax bx` appear in the Python signature but are unused. -/
def sumForwardMessage (az bz : List ℚ) (ax bx : ℚ) : Option (ℚ × ℚ) := do
  let _ := ax
  let _ := bx
  let vs ← mapOpt (fun a => safeDiv 1 a) az
  let v_bar := vs.sum
  let rs ← mapOpt (fun p => safeDiv p.2 p.1) (az.zip bz)
  let r_bar := rs.sum
  let ax_new ← safeDiv 1 v_bar
  let bx_new ← safeDiv r_bar v_bar
  return (ax_new, bx_new)

/-- Embeds `SumChannel.compute_backward_message`: the leave-one-out (cavity)
backward formula `vk = vx + v_bar - 1/ak`, `rk = rx - r_bar + bk/ak`,
returning `az_new = [1/vk]`, `bz_new = [rk/vk]`.  Note `vx = 1/ax` and
`rx = bx/ax` are computed with no zero-precision branch. -/
def sumBackwardMessage (az bz : List ℚ) (ax bx : ℚ) :
    Option (List ℚ × List ℚ) := do
  let vs ← mapOpt (fun a => safeDiv 1 a) az
  let v_bar := vs.sum
  let rs ← mapOpt (fun p => safeDiv p.2 p.1) (az.zip bz)
  let r_bar := rs.sum
  let vx ← safeDiv 1 ax
  let rx ← safeDiv bx ax
  let vk ← mapOpt (fun a => do
    let ia ← safeDiv 1 a
    return vx + v_bar - ia) az
  let rk ← mapOpt (fun p => do
    let ba ← safeDiv p.2 p.1
    return rx - r_bar + ba) (az.zip bz)
  let az_new ← mapOpt (fun v => safeDiv 1 v) vk
  let bz_new ← mapOpt (fun p => safeDiv p.2 p.1) (vk.zip rk)
  return (az_new, bz_new)

/-! ## ReshapeChannel (src/channels/reshape_channel.py)

A coefficient tensor is modelled as its shape together with its flat
(row-major) data; `reshape` reinterprets the shape (numpy raises when the
element count is inconsistent, modelled by `none`), `ravel` flattens. -/

/-- Tensor: a shape together with row-major flat data. -/
structure Tensor where
  shape : List ℕ
  data : List ℚ
  deriving DecidableEq, Repr

/-- Number of elements a shape describes. -/
def shapeSize (shape : List ℕ) : ℕ := shape.foldl (· * ·) 1

/-- Embeds numpy `reshape`: reinterpret the flat data under a new shape,
failing when the element count is inconsistent with the new shape. -/
def Tensor.reshape (t : Tensor) (shape : List ℕ) : Option Tensor :=
  if t.data.length = shapeSize shape then some ⟨shape, t.data⟩ else none

/-- Embeds numpy `ravel`: flatten to a vector. -/
def Tensor.ravel (t : Tensor) : Tensor := ⟨[t.data.length], t.data⟩

/-- Embeds `ReshapeChannel.compute_forward_message`: precision `az` passes
through, the coefficient is reshaped to the declared shape.  `ax bx` are
unused. -/
def reshapeForwardMessage (shape : List ℕ) (az : ℚ) (bz : Tensor)
    (ax : ℚ) (bx : Tensor) : Option (ℚ × Tensor) := do
  let _ := ax
  let _ := bx
  let b ← bz.reshape shape
  return (az, b)

/-- Embeds `ReshapeChannel.compute_backward_message`: precision `ax` passes
through, the coefficient is ravelled.  `az bz` are unused. -/
def reshapeBackwardMessage (az : ℚ) (bz : Tensor) (ax : ℚ) (bx : Tensor) :
    ℚ × Tensor :=
  let _ := az
  let _ := bz
  (ax, bx.ravel)

/-! ## GradientChannel (src/channels/gradient_channel.py)

Variance formulas depend on the data only through the precomputed power
spectrum `S = |w_fft|^2` summed over the filter-channel axis (a tensor of
nonnegative reals, here a list) and the number of filter channels `d`.
The frequency-domain resolvent `1/(az + ax*S)` of the mean computations is
embedded pointwise. -/

/-- Embeds `GradientChannel.compute_n_eff`:
`if ax == 0: return 0; if az/ax == 0: return 1;`
`n_eff = np.mean(spectrum / (az/ax + spectrum))`.
Elementwise division and the empty mean can fail, hence `Option`. -/
def compute_n_eff (S : List ℚ) (az ax : ℚ) : Option ℚ :=
  if ax = 0 then some 0
  else if az / ax = 0 then some 1
  else do
    let ratios ← mapOpt (fun s => safeDiv s (az / ax + s)) S
    listMean ratios

/-- Embeds `GradientChannel.compute_backward_variance`:
`if az == 0: return mean(1/spectrum) / ax; else (1 - n_eff) / az`. -/
def compute_backward_variance (S : List ℚ) (az ax : ℚ) : Option ℚ :=
  if az = 0 then do
    let invs ← mapOpt (fun s => safeDiv 1 s) S
    let i_mean ← listMean invs
    safeDiv i_mean ax
  else do
    let n_eff ← compute_n_eff S az ax
    safeDiv (1 - n_eff) az

/-- Embeds `GradientChannel.compute_forward_variance`:
`if ax == 0: return mean(spectrum) / az; else n_eff / (ax * d)`. -/
def compute_forward_variance (S : List ℚ) (d : ℕ) (az ax : ℚ) : Option ℚ :=
  if ax = 0 then do
    let s_mean ← listMean S
    safeDiv s_mean az
  else do
    let n_eff ← compute_n_eff S az ax
    safeDiv n_eff (ax * (d : ℚ))

/-- Embeds the frequency-domain resolvent `1 / (az + ax * spectrum)` of
`GradientChannel.compute_backward_mean`; the mean computations contain no
zero-precision branch, and their output is finite exactly when every
resolvent entry is. -/
def gradientResolvent (S : List ℚ) (az ax : ℚ) : Option (List ℚ) :=
  mapOpt (fun s => safeDiv 1 (az + ax * s)) S

/-! ## MessagePassing engine (src/algos/message_passing.py)

Per-edge message data: an `n_iter` counter plus a payload mapping message
keys to tensor values (values stand in as rationals; the merge semantics do
not depend on the value type).  The graph's edges are modelled as a total
map from `(source, target)` node-id pairs to edge data, reflecting the
frozen topology (updates only ever touch existing edges). -/

/-- Data carried by one message edge: the `n_iter` counter and the named
payload (Python dict, here an association list with unique keys). -/
structure EdgeData where
  n_iter : ℕ
  payload : List (String × ℚ)
  deriving DecidableEq, Repr

/-- First-match lookup in an association list (Python dict read). -/
def lookupKey (k : String) : List (String × ℚ) → Option ℚ
  | [] => none
  | (k1, v) :: rest => if k1 = k then some v else lookupKey k rest

/-- Set one key in an association list (Python dict write): replace the
first occurrence or append. -/
def setKey (k : String) (v : ℚ) : List (String × ℚ) → List (String × ℚ)
  | [] => [(k, v)]
  | (k1, v1) :: rest =>
      if k1 = k then (k, v) :: rest else (k1, v1) :: setKey k v rest

/-- Embeds Python `old.update(new)`: write every key of `new` into `old`,
keys absent from `new` keep their old value. -/
def dictUpdate (old new : List (String × ℚ)) : List (String × ℚ) :=
  new.foldl (fun d kv => setKey kv.1 kv.2 d) old

/-- Embeds one step of `MessagePassing.update_message`: for edge
`(source, target)` with returned payload `newData`, increment that edge's
`n_iter` by one and merge the payload keys (the source writes
`n_iter = n_iter + 1` into the update dict before applying it, so the final
counter is always old + 1). -/
def updateOneMessage (g : ℕ × ℕ → EdgeData) (st : ℕ × ℕ)
    (newData : List (String × ℚ)) : ℕ × ℕ → EdgeData :=
  fun e =>
    if e = st then
      ⟨(g st).n_iter + 1, dictUpdate (g st).payload newData⟩
    else g e

/-- Embeds `MessagePassing.update_message`: apply `updateOneMessage` for
each `(source, target, new_data)` in the returned message collection, in
order. -/
def update_message (g : ℕ × ℕ → EdgeData)
    (msgs : List ((ℕ × ℕ) × List (String × ℚ))) : ℕ × ℕ → EdgeData :=
  msgs.foldl (fun g m => updateOneMessage g m.1 m.2) g

/-- The per-variable part of the message graph: each variable id paired
with its current marginal variance `v`; `none` models a nan variance.
`rest` abstracts the remaining payload (edges, means, ...), which the
divergence diagnostics never read. -/
structure MPGraph (α : Type) where
  vars : List (ℕ × Option ℚ)
  rest : α
  deriving DecidableEq

/-- Embeds `MessagePassing.check_any_nan`: true iff some variable's `v` is
nan. -/
def checkAnyNan {α : Type} (g : MPGraph α) : Bool :=
  g.vars.any (fun p => p.2.isNone)

/-- Embeds `find_variable_in_nodes`: first variable with the given id (the
source asserts there is exactly one). -/
def findV (id : ℕ) : List (ℕ × Option ℚ) → Option (Option ℚ)
  | [] => none
  | (i, v) :: rest => if i = id then some v else findV id rest

/-- Embeds `MessagePassing.check_any_increasing`: true iff some variable's
new `v` is strictly greater than its value in the old (checkpoint) graph.
Comparisons involving nan are false, as in Python. -/
def checkAnyIncreasing {α : Type} (old g : MPGraph α) : Bool :=
  g.vars.any (fun p =>
    match findV p.1 old.vars, p.2 with
    | some (some old_v), some new_v => decide (old_v < new_v)
    | _, _ => false)

/-- Engine state: the message graph once initialized (`none` models the
attribute `message_dag` not existing yet) and the accepted-iteration
counter. -/
structure Engine (α : Type) where
  message_dag : Option (MPGraph α)
  n_iter : ℕ

/-- Embeds the `for i in range(max_iter)` loop of `MessagePassing.iterate`.
`fwd`, `bwd`, `upd` are the forward sweep, backward sweep and variable
update (caller-supplied rules applied over the graph); `cb` is the
callback.  Each pass: run the three sweeps; on iteration `i > 0`, if the
nan check (when enabled) or the increasing check (when enabled) fires,
restore the pre-iteration checkpoint and stop without touching `n_iter`;
otherwise commit, increment `n_iter` and consult the callback.  `fuel` is
the number of remaining loop passes, initially `max_iter`. -/
def iterFrom {α : Type} (fwd bwd upd : MPGraph α → MPGraph α)
    (cb : MPGraph α → ℕ → ℕ → Bool) (maxIter : ℕ)
    (checkNan checkDecr : Bool) :
    (fuel i n : ℕ) → MPGraph α → ℕ × MPGraph α
  | 0, _, n, g => (n, g)
  | fuel + 1, i, n, g =>
      let g1 := upd (bwd (fwd g))
      if 0 < i ∧ checkNan ∧ checkAnyNan g1 then (n, g)
      else if 0 < i ∧ checkDecr ∧ checkAnyIncreasing g g1 then (n, g)
      else if cb g1 i maxIter then (n + 1, g1)
      else iterFrom fwd bwd upd cb maxIter checkNan checkDecr fuel (i + 1)
        (n + 1) g1

/-- Embeds `MessagePassing.iterate`.  With `warm_start` the existing
message graph and `n_iter` are reused, and it is an error
(`ValueError("message dag was not initialized")`) when no graph exists;
otherwise `n_iter` is reset to 0 and the loop starts from the freshly
initialized graph `initG` (the result of `init_message_dag`). -/
def iterate {α : Type} (e : Engine α) (maxIter : ℕ)
    (warmStart checkNan checkDecr : Bool) (initG : MPGraph α)
    (fwd bwd upd : MPGraph α → MPGraph α)
    (cb : MPGraph α → ℕ → ℕ → Bool) : Except String (Engine α) :=
  if warmStart then
    match e.message_dag with
    | none => Except.error "message dag was not initialized"
    | some g =>
        let r := iterFrom fwd bwd upd cb maxIter checkNan checkDecr maxIter 0
          e.n_iter g
        Except.ok ⟨some r.2, r.1⟩
  else
    let r := iterFrom fwd bwd upd cb maxIter checkNan checkDecr maxIter 0 0
      initG
    Except.ok ⟨some r.2, r.1⟩

/-! ## Shared helper lemmas -/

theorem mapOpt_eq_map {A B : Type} (f : A → Option B) (g : A → B)
    (l : List A) (h : ∀ a ∈ l, f a = some (g a)) :
    mapOpt f l = some (l.map g) := by
  induction l with
  | nil => rfl
  | cons a as ih =>
      simp only [mapOpt, List.map_cons, h a (List.mem_cons_self a as),
        ih (fun x hx => h x (List.mem_cons_of_mem a hx)), Option.bind_eq_bind,
        Option.some_bind, Option.pure_def]

theorem safeDiv_of_ne (a b : ℚ) (hb : b ≠ 0) : safeDiv a b = some (a / b) :=
  if_neg hb

theorem listMean_of_ne_nil (xs : List ℚ) (h : xs ≠ []) :
    listMean xs = some (xs.sum / (xs.length : ℚ)) := by
  have hlen : (xs.length : ℚ) ≠ 0 :=
    Nat.cast_ne_zero.mpr (List.length_pos.mpr h).ne'
  exact safeDiv_of_ne _ _ hlen

/-! ## Claim theorems: channels -/

/-- C10: the forward message of SumChannel and of ReshapeChannel is
independent of the outgoing-direction accumulators `(ax, bx)`, and
ReshapeChannel's backward message is independent of `(az, bz)`: the
computations never read those arguments. -/
theorem forward_message_noninterference (az bz : List ℚ)
    (ax bx ax2 bx2 : ℚ) (shape : List ℕ) (a c1 c2 : ℚ)
    (t u1 u2 w : Tensor) :
    sumForwardMessage az bz ax bx = sumForwardMessage az bz ax2 bx2 ∧
    reshapeForwardMessage shape a t c1 u1 =
      reshapeForwardMessage shape a t c2 u2 ∧
    reshapeBackwardMessage c1 u1 a w = reshapeBackwardMessage c2 u2 a w :=
  ⟨rfl, rfl, rfl⟩

/-- C9: for ReshapeChannel, forward then backward is an exact identity:
for a flat coefficient vector `bz` whose element count is consistent with
the declared shape, the forward message keeps the precision `az` and
reshapes `bz`; feeding the reshaped tensor back through the backward
message keeps the precision `ax` and ravel returns the original flat
tensor. -/
theorem reshape_roundtrip_identity (shape : List ℕ) (az : ℚ) (bz : Tensor)
    (ax : ℚ) (bx : Tensor) (hlen : bz.data.length = shapeSize shape)
    (hflat : bz.shape = [bz.data.length]) :
    ∃ b, reshapeForwardMessage shape az bz ax bx = some (az, b) ∧
      reshapeBackwardMessage az bz ax b = (ax, bz) := by
  refine ⟨⟨shape, bz.data⟩, ?_, ?_⟩
  · simp [reshapeForwardMessage, Tensor.reshape, hlen]
  · cases bz with
    | mk s d => simp_all [reshapeBackwardMessage, Tensor.ravel]

/-- Witness for C9 at the concrete shape `[2, 1]` and vector `[5, 7]`. -/
theorem reshape_roundtrip_identity_witness :
    ∃ b, reshapeForwardMessage [2, 1] 3 ⟨[2], [5, 7]⟩ 4 ⟨[1], [0]⟩ =
        some (3, b) ∧
      reshapeBackwardMessage 3 ⟨[2], [5, 7]⟩ 4 b = (4, ⟨[2], [5, 7]⟩) :=
  reshape_roundtrip_identity [2, 1] 3 ⟨[2], [5, 7]⟩ 4 ⟨[1], [0]⟩
    (by decide) (by decide)

/-- C3: for GradientChannel, `compute_n_eff(az, ax)` lies in `[0, 1]` for
all `az, ax > 0` over a nonempty nonnegative spectrum; moreover
`compute_n_eff(az, 0) = 0` for any `az` and `compute_n_eff(0, ax) = 1`
for any `ax > 0`. -/
theorem n_eff_bounds (S : List ℚ) (hne : S ≠ []) (hS : ∀ s ∈ S, 0 ≤ s) :
    (∀ az ax : ℚ, 0 < az → 0 < ax →
      ∃ v, compute_n_eff S az ax = some v ∧ 0 ≤ v ∧ v ≤ 1) ∧
    (∀ az : ℚ, compute_n_eff S az 0 = some 0) ∧
    (∀ ax : ℚ, 0 < ax → compute_n_eff S 0 ax = some 1) := by
  refine ⟨?_, ?_, ?_⟩
  · intro az ax haz hax
    have hρ : 0 < az / ax := div_pos haz hax
    have hmap : mapOpt (fun s => safeDiv s (az / ax + s)) S =
        some (S.map (fun s => s / (az / ax + s))) := by
      refine mapOpt_eq_map _ _ _ (fun s hs => ?_)
      have hpos : (0 : ℚ) < az / ax + s :=
        add_pos_of_pos_of_nonneg hρ (hS s hs)
      exact safeDiv_of_ne _ _ hpos.ne'
    have hmapne : S.map (fun s => s / (az / ax + s)) ≠ [] := by
      simpa using hne
    have hval : compute_n_eff S az ax =
        some ((S.map (fun s => s / (az / ax + s))).sum / (S.length : ℚ)) := by
      rw [compute_n_eff, if_neg hax.ne', if_neg hρ.ne']
      simp only [Option.bind_eq_bind]
      rw [hmap, Option.some_bind, listMean_of_ne_nil _ hmapne,
        List.length_map]
    have hlenpos : (0 : ℚ) < (S.length : ℚ) :=
      Nat.cast_pos.mpr (List.length_pos.mpr hne)
    refine ⟨_, hval, ?_, ?_⟩
    · refine div_nonneg (List.sum_nonneg ?_) hlenpos.le
      intro x hx
      obtain ⟨s, hs, rfl⟩ := List.mem_map.mp hx
      exact div_nonneg (hS s hs) (add_pos_of_pos_of_nonneg hρ (hS s hs)).le
    · rw [div_le_one hlenpos]
      have hb := List.sum_le_card_nsmul (S.map (fun s => s / (az / ax + s)))
        1 ?_
      · simpa [List.length_map] using hb
      · intro x hx
        obtain ⟨s, hs, rfl⟩ := List.mem_map.mp hx
        rw [div_le_one (add_pos_of_pos_of_nonneg hρ (hS s hs))]
        exact le_add_of_nonneg_left hρ.le
  · intro az
    rw [compute_n_eff, if_pos rfl]
  · intro ax hax
    rw [compute_n_eff, if_neg hax.ne']
    simp [zero_div]

/-- Witness for C3 over the concrete spectrum `[0, 1]` at `az = 2`,
`ax = 3`. -/
theorem n_eff_bounds_witness :
    ∃ v, compute_n_eff [0, 1] 2 3 = some v ∧ 0 ≤ v ∧ v ≤ 1 :=
  (n_eff_bounds [0, 1] (by decide) (by decide)).1 2 3 (by norm_num)
    (by norm_num)

/-- C2 counterexample: `SumChannel.compute_backward_message` called with
`ax = 0` and well-formed positive remaining inputs takes no special-case
branch: it computes `vx = 1/ax` and divides by zero instead of returning a
finite value. -/
theorem sum_backward_zero_ax_fails : sumBackwardMessage [1] [1] 0 0 = none :=
  by decide

/-- C2 amended: GradientChannel's `compute_n_eff`,
`compute_backward_variance` and `compute_forward_variance` special-case
zero precision and return finite values over a nonempty positive spectrum,
and the resolvent of the (un-branched) mean computations stays finite at
`az = 0` for `ax > 0`; `SumChannel.compute_backward_message` however has
no zero-precision branch and always divides by zero when `ax = 0`. -/
theorem zero_precision_edge_cases (S : List ℚ) (d : ℕ) (hne : S ≠ [])
    (hS : ∀ s ∈ S, 0 < s) :
    (∀ ax : ℚ, ax ≠ 0 → (compute_backward_variance S 0 ax).isSome = true) ∧
    (∀ az : ℚ, az ≠ 0 → (compute_forward_variance S d az 0).isSome = true) ∧
    (∀ az : ℚ, compute_n_eff S az 0 = some 0) ∧
    (∀ ax : ℚ, 0 < ax → (gradientResolvent S 0 ax).isSome = true) ∧
    (∀ az bz : List ℚ, ∀ bx : ℚ, sumBackwardMessage az bz 0 bx = none) := by
  refine ⟨?_, ?_, ?_, ?_, ?_⟩
  · intro ax hax
    rw [compute_backward_variance, if_pos rfl]
    have hmap := mapOpt_eq_map (fun s => safeDiv 1 s) (fun s => 1 / s) S
      (fun s hs => safeDiv_of_ne _ _ (hS s hs).ne')
    have hmapne : S.map (fun s => 1 / s) ≠ [] := by simpa using hne
    simp only [Option.bind_eq_bind]
    rw [hmap, Option.some_bind, listMean_of_ne_nil _ hmapne,
      Option.some_bind, safeDiv_of_ne _ _ hax]
    rfl
  · intro az haz
    rw [compute_forward_variance, if_pos rfl]
    simp only [Option.bind_eq_bind]
    rw [listMean_of_ne_nil _ hne, Option.some_bind, safeDiv_of_ne _ _ haz]
    rfl
  · intro az
    rw [compute_n_eff, if_pos rfl]
  · intro ax hax
    rw [gradientResolvent, mapOpt_eq_map _ (fun s => 1 / (0 + ax * s)) _
      (fun s hs => safeDiv_of_ne _ _
        (by rw [zero_add]; exact (mul_pos hax (hS s hs)).ne'))]
    rfl
  · intro az bz bx
    cases h1 : mapOpt (fun a => safeDiv 1 a) az with
    | none => simp [sumBackwardMessage, h1]
    | some vs =>
        cases h2 : mapOpt (fun p => safeDiv p.2 p.1) (az.zip bz) with
        | none => simp [sumBackwardMessage, h1, h2]
        | some rs => simp [sumBackwardMessage, h1, h2, safeDiv]

/-- Witness for C2 (amended) over the concrete spectrum `[1]`. -/
theorem zero_precision_edge_cases_witness :
    (compute_backward_variance [1] 0 2).isSome = true ∧
    (compute_forward_variance [1] 1 3 0).isSome = true ∧
    sumBackwardMessage [2] [3] 0 4 = none :=
  ⟨(zero_precision_edge_cases [1] 1 (by decide) (by decide)).1 2
      (by norm_num),
   (zero_precision_edge_cases [1] 1 (by decide) (by decide)).2.1 3
      (by norm_num),
   (zero_precision_edge_cases [1] 1 (by decide) (by decide)).2.2.2.2 [2]
      [3] 4⟩

/-- Closed-form evaluation of the two-input forward message. -/
theorem sumForwardMessage_pair (a1 a2 b1 b2 ax bx : ℚ)
    (ha1 : a1 ≠ 0) (ha2 : a2 ≠ 0) (hv : a1⁻¹ + a2⁻¹ ≠ 0) :
    sumForwardMessage [a1, a2] [b1, b2] ax bx =
      some ((a1⁻¹ + a2⁻¹)⁻¹, (b1 / a1 + b2 / a2) / (a1⁻¹ + a2⁻¹)) := by
  simp [sumForwardMessage, mapOpt, safeDiv, ha1, ha2, hv]

/-- Closed-form evaluation of the two-input backward (cavity) message. -/
theorem sumBackwardMessage_pair (a1 a2 b1 b2 ax bx : ℚ)
    (ha1 : a1 ≠ 0) (ha2 : a2 ≠ 0) (hax : ax ≠ 0)
    (hw1 : ax⁻¹ + (a1⁻¹ + a2⁻¹) - a1⁻¹ ≠ 0)
    (hw2 : ax⁻¹ + (a1⁻¹ + a2⁻¹) - a2⁻¹ ≠ 0) :
    sumBackwardMessage [a1, a2] [b1, b2] ax bx =
      some ([(ax⁻¹ + (a1⁻¹ + a2⁻¹) - a1⁻¹)⁻¹,
             (ax⁻¹ + (a1⁻¹ + a2⁻¹) - a2⁻¹)⁻¹],
            [(bx / ax - (b1 / a1 + b2 / a2) + b1 / a1) /
               (ax⁻¹ + (a1⁻¹ + a2⁻¹) - a1⁻¹),
             (bx / ax - (b1 / a1 + b2 / a2) + b2 / a2) /
               (ax⁻¹ + (a1⁻¹ + a2⁻¹) - a2⁻¹)]) := by
  simp [sumBackwardMessage, mapOpt, safeDiv, ha1, ha2, hax, hw1, hw2]

/-- C5 counterexample: with `a1 = a2 = 1`, `b1 = 1`, `b2 = 0`, the forward
message is `(1/2, 1/2)`; feeding it into the backward formula returns
precisions `[1/3, 1/3]` and coefficients `[1/3, 0]`, so neither `a1 = 1`
nor `b1 = 1` is reproduced. -/
theorem sum_roundtrip_not_identity :
    sumForwardMessage [1, 1] [1, 0] 0 0 = some (1/2, 1/2) ∧
    sumBackwardMessage [1, 1] [1, 0] (1/2) (1/2) =
      some ([1/3, 1/3], [1/3, 0]) ∧
    ¬((1 : ℚ)/3 = 1) := by
  refine ⟨?_, ?_, by norm_num⟩
  · simp [sumForwardMessage, mapOpt, safeDiv]
    norm_num
  · simp [sumBackwardMessage, mapOpt, safeDiv]
    norm_num

/-- C5 amended: the cavity round trip reproduces each input's Gaussian
mean, `B_k / A_k = b_k / a_k`, but not its precision: feeding the forward
message `(ax, bx)` back into the leave-one-out backward formula returns
`A_k ≠ a_k` for positive precisions. -/
theorem sum_roundtrip_reproduces_means (a1 a2 b1 b2 : ℚ)
    (h1 : 0 < a1) (h2 : 0 < a2) :
    ∃ ax bx A1 A2 B1 B2,
      sumForwardMessage [a1, a2] [b1, b2] 0 0 = some (ax, bx) ∧
      sumBackwardMessage [a1, a2] [b1, b2] ax bx =
        some ([A1, A2], [B1, B2]) ∧
      B1 / A1 = b1 / a1 ∧ B2 / A2 = b2 / a2 ∧ A1 ≠ a1 ∧ A2 ≠ a2 := by
  have ha1 : a1 ≠ 0 := h1.ne'
  have ha2 : a2 ≠ 0 := h2.ne'
  have hvpos : (0:ℚ) < a1⁻¹ + a2⁻¹ := by positivity
  have hv : a1⁻¹ + a2⁻¹ ≠ 0 := hvpos.ne'
  have hax : (a1⁻¹ + a2⁻¹)⁻¹ ≠ 0 := inv_ne_zero hv
  have hw1e : ((a1⁻¹ + a2⁻¹)⁻¹)⁻¹ + (a1⁻¹ + a2⁻¹) - a1⁻¹
      = a1⁻¹ + (a2⁻¹ + a2⁻¹) := by
    rw [inv_inv]; ring
  have hw2e : ((a1⁻¹ + a2⁻¹)⁻¹)⁻¹ + (a1⁻¹ + a2⁻¹) - a2⁻¹
      = (a1⁻¹ + a1⁻¹) + a2⁻¹ := by
    rw [inv_inv]; ring
  have hw1 : ((a1⁻¹ + a2⁻¹)⁻¹)⁻¹ + (a1⁻¹ + a2⁻¹) - a1⁻¹ ≠ 0 := by
    rw [hw1e]; positivity
  have hw2 : ((a1⁻¹ + a2⁻¹)⁻¹)⁻¹ + (a1⁻¹ + a2⁻¹) - a2⁻¹ ≠ 0 := by
    rw [hw2e]; positivity
  have hrx : ((b1 / a1 + b2 / a2) / (a1⁻¹ + a2⁻¹)) / (a1⁻¹ + a2⁻¹)⁻¹
      = b1 / a1 + b2 / a2 := by
    rw [div_inv_eq_mul, div_mul_cancel₀ _ hv]
  refine ⟨_, _, _, _, _, _,
    sumForwardMessage_pair a1 a2 b1 b2 0 0 ha1 ha2 hv,
    sumBackwardMessage_pair a1 a2 b1 b2 _ _ ha1 ha2 hax hw1 hw2,
    ?_, ?_, ?_, ?_⟩
  · rw [hrx, sub_self, zero_add, div_inv_eq_mul, div_mul_cancel₀ _ hw1]
  · rw [hrx, sub_self, zero_add, div_inv_eq_mul, div_mul_cancel₀ _ hw2]
  · rw [hw1e]
    intro h
    have h2i := congrArg Inv.inv h
    rw [inv_inv] at h2i
    have hpos2 : (0:ℚ) < a2⁻¹ := inv_pos.mpr h2
    nlinarith [h2i]
  · rw [hw2e]
    intro h
    have h1i := congrArg Inv.inv h
    rw [inv_inv] at h1i
    have hpos1 : (0:ℚ) < a1⁻¹ := inv_pos.mpr h1
    nlinarith [h1i]

/-- Witness for C5 (amended) at `a1 = 1, a2 = 2, b1 = 3, b2 = 4`. -/
theorem sum_roundtrip_reproduces_means_witness :
    ∃ ax bx A1 A2 B1 B2,
      sumForwardMessage [1, 2] [3, 4] 0 0 = some (ax, bx) ∧
      sumBackwardMessage [1, 2] [3, 4] ax bx =
        some ([A1, A2], [B1, B2]) ∧
      B1 / A1 = 3 / 1 ∧ B2 / A2 = 4 / 2 ∧ A1 ≠ 1 ∧ A2 ≠ 2 :=
  sum_roundtrip_reproduces_means 1 2 3 4 (by norm_num) (by norm_num)

/-- C8 counterexample: for a SumChannel with declared arity `n_prev = 2`
supplied one input, `sample` and `second_moment` raise, but
`compute_forward_message` performs no arity check and returns `(1, 1)`. -/
theorem forward_message_skips_arity_check :
    sumSample 2 [(1 : ℚ)] = none ∧ sumSecondMoment 2 [(1 : ℚ)] = none ∧
    sumForwardMessage [1] [1] 0 0 = some (1, 1) := by
  refine ⟨by decide, by decide, ?_⟩
  simp [sumForwardMessage, mapOpt, safeDiv]

/-- C8 amended: `SumChannel.sample` and `SumChannel.second_moment` signal
an arity mismatch whenever the number of supplied inputs differs from
`n_prev`, but `compute_forward_message` does not check arity: it succeeds
on any nonempty list of positive precisions, whatever its length. -/
theorem arity_mismatch_checks (n_prev : ℕ) (Zs taus : List ℚ)
    (hZ : Zs.length ≠ n_prev) (ht : taus.length ≠ n_prev)
    (az bz : List ℚ) (hne : az ≠ []) (ha : ∀ a ∈ az, 0 < a) (ax bx : ℚ) :
    sumSample n_prev Zs = none ∧ sumSecondMoment n_prev taus = none ∧
    (sumForwardMessage az bz ax bx).isSome = true := by
  refine ⟨if_pos hZ, if_pos ht, ?_⟩
  have hmap1 : mapOpt (fun a => safeDiv 1 a) az =
      some (az.map (fun a => 1 / a)) :=
    mapOpt_eq_map _ _ _ (fun a hx => safeDiv_of_ne _ _ (ha a hx).ne')
  have hmap2 : mapOpt (fun p => safeDiv p.2 p.1) (az.zip bz) =
      some ((az.zip bz).map (fun p => p.2 / p.1)) :=
    mapOpt_eq_map _ _ _
      (fun p hp => safeDiv_of_ne _ _ (ha p.1 (List.of_mem_zip hp).1).ne')
  have hsum : 0 < (az.map (fun a => 1 / a)).sum := by
    refine List.sum_pos _ (fun x hx => ?_) (by simpa using hne)
    obtain ⟨a, hax2, rfl⟩ := List.mem_map.mp hx
    exact div_pos one_pos (ha a hax2)
  rw [sumForwardMessage]
  simp only [Option.bind_eq_bind]
  rw [hmap1, Option.some_bind, hmap2, Option.some_bind,
    safeDiv_of_ne _ _ hsum.ne', Option.some_bind,
    safeDiv_of_ne _ _ hsum.ne', Option.some_bind]
  rfl

/-- Witness for C8 (amended): arity 2 with one sample input, three second
moments, and a length-one message list. -/
theorem arity_mismatch_checks_witness :
    sumSample 2 [(5 : ℚ)] = none ∧ sumSecondMoment 2 [1, 2, 3] = none ∧
    (sumForwardMessage [4] [7] 0 0).isSome = true :=
  arity_mismatch_checks 2 [5] [1, 2, 3] (by decide) (by decide) [4] [7]
    (by decide) (by norm_num) 0 0

/-- C4: `compute_backward_variance(az, ax)` returns `mean(1/S)/ax` when
`az = 0` and `(1 - n_eff)/az` otherwise; `compute_forward_variance(az, ax)`
returns `mean(S)/az` when `ax = 0` and `n_eff/(ax*d)` otherwise, where `S`
is the precomputed power spectrum and `d` the number of filter channels. -/
theorem variance_formulas (S : List ℚ) (d : ℕ) (az ax : ℚ)
    (hne : S ≠ []) (hS : ∀ s ∈ S, 0 < s) (hd : 0 < d) :
    (az = 0 → ax ≠ 0 → compute_backward_variance S az ax =
      some (((S.map (fun s => 1 / s)).sum / (S.length : ℚ)) / ax)) ∧
    (az ≠ 0 → ∀ n, compute_n_eff S az ax = some n →
      compute_backward_variance S az ax = some ((1 - n) / az)) ∧
    (ax = 0 → az ≠ 0 → compute_forward_variance S d az ax =
      some ((S.sum / (S.length : ℚ)) / az)) ∧
    (ax ≠ 0 → ∀ n, compute_n_eff S az ax = some n →
      compute_forward_variance S d az ax = some (n / (ax * (d : ℚ)))) := by
  refine ⟨?_, ?_, ?_, ?_⟩
  · intro haz hax
    subst haz
    rw [compute_backward_variance, if_pos rfl]
    have hmap := mapOpt_eq_map (fun s => safeDiv 1 s) (fun s => 1 / s) S
      (fun s hs => safeDiv_of_ne _ _ (hS s hs).ne')
    have hmapne : S.map (fun s => 1 / s) ≠ [] := by simpa using hne
    simp only [Option.bind_eq_bind]
    rw [hmap, Option.some_bind, listMean_of_ne_nil _ hmapne,
      Option.some_bind, safeDiv_of_ne _ _ hax, List.length_map]
  · intro haz n hn
    rw [compute_backward_variance, if_neg haz]
    simp only [Option.bind_eq_bind]
    rw [hn, Option.some_bind, safeDiv_of_ne _ _ haz]
  · intro hax haz
    subst hax
    rw [compute_forward_variance, if_pos rfl]
    simp only [Option.bind_eq_bind]
    rw [listMean_of_ne_nil _ hne, Option.some_bind, safeDiv_of_ne _ _ haz]
  · intro hax n hn
    rw [compute_forward_variance, if_neg hax]
    simp only [Option.bind_eq_bind]
    rw [hn, Option.some_bind,
      safeDiv_of_ne _ _ (mul_ne_zero hax (Nat.cast_ne_zero.mpr hd.ne'))]

/-- Witness for C4 over the spectrum `[1]` with `d = 1`, `az = 2`,
`ax = 3` (where `n_eff = 3/5`). -/
theorem variance_formulas_witness :
    compute_backward_variance [1] 2 3 = some ((1 - 3/5) / 2) ∧
    compute_forward_variance [1] 1 2 3 = some ((3/5) / (3 * (1 : ℚ))) :=
  ⟨(variance_formulas [1] 1 2 3 (by decide) (by decide) (by decide)).2.1
      (by norm_num) (3/5)
      (by simp [compute_n_eff, mapOpt, safeDiv, listMean]; norm_num),
   (variance_formulas [1] 1 2 3 (by decide) (by decide)
      (by decide)).2.2.2 (by norm_num) (3/5)
      (by simp [compute_n_eff, mapOpt, safeDiv, listMean]; norm_num)⟩

/-! ## Engine helper lemmas -/

theorem dictUpdate_cons (old : List (String × ℚ)) (kv : String × ℚ)
    (rest : List (String × ℚ)) :
    dictUpdate old (kv :: rest) = dictUpdate (setKey kv.1 kv.2 old) rest :=
  rfl

theorem lookupKey_setKey_same (k : String) (v : ℚ)
    (d : List (String × ℚ)) : lookupKey k (setKey k v d) = some v := by
  induction d with
  | nil => simp [setKey, lookupKey]
  | cons kv rest ih =>
      obtain ⟨k1, v1⟩ := kv
      by_cases h : k1 = k
      · simp [setKey, h, lookupKey]
      · simp [setKey, h, lookupKey, ih]

theorem lookupKey_setKey_other (k k1 : String) (hk : k1 ≠ k) (v : ℚ)
    (d : List (String × ℚ)) :
    lookupKey k (setKey k1 v d) = lookupKey k d := by
  induction d with
  | nil => simp [setKey, lookupKey, hk]
  | cons kv rest ih =>
      obtain ⟨k2, v2⟩ := kv
      by_cases h : k2 = k1
      · subst h
        simp [setKey, lookupKey, hk]
      · simp only [setKey, h, if_false, lookupKey]
        by_cases h2 : k2 = k
        · simp [h2]
        · simp [h2, ih]

theorem lookupKey_eq_none_of_not_mem (k : String)
    (d : List (String × ℚ)) (h : k ∉ d.map Prod.fst) :
    lookupKey k d = none := by
  induction d with
  | nil => rfl
  | cons kv rest ih =>
      obtain ⟨k1, v1⟩ := kv
      simp only [List.map_cons, List.mem_cons, not_or] at h
      rw [lookupKey, if_neg (fun he => h.1 he.symm)]
      exact ih h.2

theorem lookupKey_dictUpdate_none (old new : List (String × ℚ))
    (k : String) (h : lookupKey k new = none) :
    lookupKey k (dictUpdate old new) = lookupKey k old := by
  induction new generalizing old with
  | nil => rfl
  | cons kv rest ih =>
      obtain ⟨k1, v1⟩ := kv
      rw [lookupKey] at h
      by_cases hk : k1 = k
      · rw [if_pos hk] at h
        exact absurd h (by simp)
      · rw [if_neg hk] at h
        rw [dictUpdate_cons, ih _ h]
        exact lookupKey_setKey_other k k1 hk v1 old

theorem lookupKey_dictUpdate_some (old new : List (String × ℚ))
    (k : String) (v : ℚ) (hnd : (new.map Prod.fst).Nodup)
    (h : lookupKey k new = some v) :
    lookupKey k (dictUpdate old new) = some v := by
  induction new generalizing old with
  | nil => exact absurd h (by simp [lookupKey])
  | cons kv rest ih =>
      obtain ⟨k1, v1⟩ := kv
      rw [dictUpdate_cons]
      rw [lookupKey] at h
      simp only [List.map_cons, List.nodup_cons] at hnd
      by_cases hk : k1 = k
      · rw [if_pos hk] at h
        obtain rfl : v1 = v := Option.some.inj h
        rw [hk] at hnd
        have hnone : lookupKey k rest = none :=
          lookupKey_eq_none_of_not_mem k rest hnd.1
        rw [lookupKey_dictUpdate_none _ _ _ hnone, hk]
        exact lookupKey_setKey_same k v1 old
      · rw [if_neg hk] at h
        exact ih _ hnd.2 h

theorem update_message_cons (g : ℕ × ℕ → EdgeData)
    (m : (ℕ × ℕ) × List (String × ℚ))
    (rest : List ((ℕ × ℕ) × List (String × ℚ))) :
    update_message g (m :: rest) =
      update_message (updateOneMessage g m.1 m.2) rest := rfl

theorem update_message_not_mem (g : ℕ × ℕ → EdgeData)
    (msgs : List ((ℕ × ℕ) × List (String × ℚ))) (e : ℕ × ℕ)
    (h : e ∉ msgs.map Prod.fst) : update_message g msgs e = g e := by
  induction msgs generalizing g with
  | nil => rfl
  | cons m rest ih =>
      simp only [List.map_cons, List.mem_cons, not_or] at h
      rw [update_message_cons, ih _ h.2, updateOneMessage, if_neg h.1]

theorem update_message_mono (g : ℕ × ℕ → EdgeData)
    (msgs : List ((ℕ × ℕ) × List (String × ℚ))) (e : ℕ × ℕ) :
    (g e).n_iter ≤ (update_message g msgs e).n_iter := by
  induction msgs generalizing g with
  | nil => exact le_refl _
  | cons m rest ih =>
      rw [update_message_cons]
      refine le_trans ?_ (ih _)
      rw [updateOneMessage]
      by_cases h : e = m.1
      · subst h
        simp
      · rw [if_neg h]

/-- C7: for an edge `(source, target)` named exactly once in the
`new_message` collection passed to `update_message`, the edge's `n_iter`
is incremented by exactly one and the new payload keys are merged into the
existing payload, keys absent from the update being preserved; an edge not
named is left unchanged, and `n_iter` never decreases under
`update_message`. -/
theorem update_message_spec (g : ℕ × ℕ → EdgeData)
    (msgs : List ((ℕ × ℕ) × List (String × ℚ))) (e : ℕ × ℕ) :
    (∀ pre p post, msgs = pre ++ (e, p) :: post →
      e ∉ pre.map Prod.fst → e ∉ post.map Prod.fst →
      (update_message g msgs e).n_iter = (g e).n_iter + 1 ∧
      (∀ k v, (p.map Prod.fst).Nodup → lookupKey k p = some v →
        lookupKey k (update_message g msgs e).payload = some v) ∧
      (∀ k, lookupKey k p = none →
        lookupKey k (update_message g msgs e).payload =
          lookupKey k (g e).payload)) ∧
    (e ∉ msgs.map Prod.fst → update_message g msgs e = g e) ∧
    (g e).n_iter ≤ (update_message g msgs e).n_iter := by
  refine ⟨?_, update_message_not_mem g msgs e, update_message_mono g msgs e⟩
  intro pre p post hmsgs hpre hpost
  subst hmsgs
  have h1 : update_message g (pre ++ (e, p) :: post) =
      update_message (updateOneMessage (update_message g pre) e p) post := by
    rw [update_message, update_message, List.foldl_append]
    rfl
  have key : update_message g (pre ++ (e, p) :: post) e =
      ⟨(g e).n_iter + 1, dictUpdate (g e).payload p⟩ := by
    rw [h1, update_message_not_mem _ _ _ hpost, updateOneMessage,
      if_pos rfl, update_message_not_mem _ _ _ hpre]
  rw [key]
  refine ⟨rfl, ?_, ?_⟩
  · intro k v hnd hk
    exact lookupKey_dictUpdate_some _ _ _ _ hnd hk
  · intro k hk
    exact lookupKey_dictUpdate_none _ _ _ hk

/-- C1: on any iteration `i > 0` of the `iterate` loop, after the forward
sweep, backward sweep and variable update, if the nan check is enabled and
fires, or the non-decreasing check is enabled and fires, the loop returns
the pre-iteration checkpoint graph with `n_iter` not incremented; on
iteration `i = 0` both diagnostics are skipped and the iteration is always
committed. -/
theorem iterate_divergence_restores_checkpoint {α : Type}
    (fwd bwd upd : MPGraph α → MPGraph α) (cb : MPGraph α → ℕ → ℕ → Bool)
    (maxIter fuel i n : ℕ) (g : MPGraph α) (cn cd : Bool) (hi : 0 < i) :
    (checkAnyNan (upd (bwd (fwd g))) = true →
      iterFrom fwd bwd upd cb maxIter true cd (fuel + 1) i n g = (n, g)) ∧
    (checkAnyIncreasing g (upd (bwd (fwd g))) = true →
      iterFrom fwd bwd upd cb maxIter cn true (fuel + 1) i n g = (n, g)) ∧
    (∀ m (G : MPGraph α),
      iterFrom fwd bwd upd cb maxIter cn cd (fuel + 1) 0 m G =
        if cb (upd (bwd (fwd G))) 0 maxIter then (m + 1, upd (bwd (fwd G)))
        else iterFrom fwd bwd upd cb maxIter cn cd fuel 1 (m + 1)
          (upd (bwd (fwd G)))) := by
  refine ⟨?_, ?_, ?_⟩
  · intro hnan
    rw [iterFrom]
    simp only [hi, hnan, and_true, true_and, if_true]
  · intro hincr
    rw [iterFrom]
    by_cases hfirst :
        (0 < i ∧ cn = true ∧ checkAnyNan (upd (bwd (fwd g))) = true)
    · rw [if_pos hfirst]
    · rw [if_neg hfirst]
      simp only [hi, hincr, and_true, true_and, if_true]
  · intro m G
    rw [iterFrom]
    simp

/-- C6: calling `iterate` with `warm_start = True` when no message graph
was ever initialized raises
`ValueError("message dag was not initialized")`; with a previously
initialized graph the loop is seeded with the existing graph and the
engine's current `n_iter`, with no reinitialization from `initG`. -/
theorem warm_start_behaviour {α : Type} (e : Engine α) (maxIter : ℕ)
    (cn cd : Bool) (initG : MPGraph α)
    (fwd bwd upd : MPGraph α → MPGraph α)
    (cb : MPGraph α → ℕ → ℕ → Bool) :
    (e.message_dag = none →
      iterate e maxIter true cn cd initG fwd bwd upd cb =
        Except.error "message dag was not initialized") ∧
    (∀ g, e.message_dag = some g →
      iterate e maxIter true cn cd initG fwd bwd upd cb =
        Except.ok ⟨some (iterFrom fwd bwd upd cb maxIter cn cd maxIter 0
            e.n_iter g).2,
          (iterFrom fwd bwd upd cb maxIter cn cd maxIter 0 e.n_iter g).1⟩) := by
  constructor
  · intro h
    rw [iterate, if_pos rfl, h]
  · intro g h
    rw [iterate, if_pos rfl, h]

/-- Witness for C7: a single-edge update on a concrete graph. -/
theorem update_message_spec_witness :
    (update_message (fun _ => ⟨0, [("a", 1)]⟩) [((0, 1), [("b", 2)])]
      (0, 1)).n_iter = 0 + 1 ∧
    lookupKey "b" (update_message (fun _ => ⟨0, [("a", 1)]⟩)
      [((0, 1), [("b", 2)])] (0, 1)).payload = some 2 ∧
    lookupKey "a" (update_message (fun _ => ⟨0, [("a", 1)]⟩)
      [((0, 1), [("b", 2)])] (0, 1)).payload = lookupKey "a" [("a", 1)] :=
  ⟨((update_message_spec (fun _ => ⟨0, [("a", 1)]⟩) [((0, 1), [("b", 2)])]
      (0, 1)).1 [] [("b", 2)] [] rfl (by simp) (by simp)).1,
   ((update_message_spec (fun _ => ⟨0, [("a", 1)]⟩) [((0, 1), [("b", 2)])]
      (0, 1)).1 [] [("b", 2)] [] rfl (by simp) (by simp)).2.1 "b" 2
      (by simp) rfl,
   ((update_message_spec (fun _ => ⟨0, [("a", 1)]⟩) [((0, 1), [("b", 2)])]
      (0, 1)).1 [] [("b", 2)] [] rfl (by simp) (by simp)).2.2 "a"
      (by simp [lookupKey])⟩

/-- Witness for C1: an update rule that writes a nan variance on
iteration `i = 1` makes the loop return the checkpoint with `n_iter`
unchanged. -/
theorem iterate_divergence_restores_checkpoint_witness :
    iterFrom (α := Unit) id id (fun _ => ⟨[(0, none)], ()⟩)
      (fun _ _ _ => false) 5 true true 3 1 7 ⟨[(0, some 1)], ()⟩ =
      (7, ⟨[(0, some 1)], ()⟩) :=
  (iterate_divergence_restores_checkpoint id id (fun _ => ⟨[(0, none)], ()⟩)
    (fun _ _ _ => false) 5 2 1 7 ⟨[(0, some 1)], ()⟩ true true
    (by decide)).1 (by decide)

/-- Witness for C6: warm start on an uninitialized engine errors; on an
initialized engine with `n_iter = 3` and `max_iter = 0` it returns the
stored graph and counter unchanged. -/
theorem warm_start_behaviour_witness :
    iterate (α := Unit) ⟨none, 0⟩ 2 true true true ⟨[], ()⟩ id id id
        (fun _ _ _ => false) =
      Except.error "message dag was not initialized" ∧
    iterate (α := Unit) ⟨some ⟨[(0, some 1)], ()⟩, 3⟩ 0 true true true
        ⟨[], ()⟩ id id id (fun _ _ _ => false) =
      Except.ok ⟨some (iterFrom (α := Unit) id id id (fun _ _ _ => false)
          0 true true 0 0 3 ⟨[(0, some 1)], ()⟩).2,
        (iterFrom (α := Unit) id id id (fun _ _ _ => false)
          0 true true 0 0 3 ⟨[(0, some 1)], ()⟩).1⟩ :=
  ⟨(warm_start_behaviour ⟨none, 0⟩ 2 true true ⟨[], ()⟩ id id id
      (fun _ _ _ => false)).1 rfl,
   (warm_start_behaviour ⟨some ⟨[(0, some 1)], ()⟩, 3⟩ 0 true true ⟨[], ()⟩
      id id id (fun _ _ _ => false)).2 ⟨[(0, some 1)], ()⟩ rfl⟩

end Tramp
